import Mathlib

/-!
Verification development for the Monte Carlo project-forecasting engine:
distribution samplers, CPM scheduler, Monte Carlo driver and statistical
aggregation, shallowly embedded over exact arithmetic (ℚ for the scheduler
and engine, a generic linear ordered field for the statistics so that they
can also be read at ℝ).  Randomness (the global Mersenne-Twister instance)
is modelled by explicit draw arguments and per-trial oracles; Math.sqrt and
random.beta are abstracted as function parameters.
-/

namespace MCSim

/-- Node identifiers of the CPM dependency graph: the START and END sentinels
(strings in the source) and task ids. Task ids are unique strings generated by
the task form in the source and never collide with the sentinels; they are
modelled as naturals. -/
inductive NodeId where
  | start : NodeId
  | finish : NodeId
  | tid : ℕ → NodeId
deriving DecidableEq

/-- Dependency relation types FS, SS, FF, SF (closed enumeration of the
string-keyed switch in the source). -/
inductive DepType where
  | FS : DepType
  | SS : DepType
  | FF : DepType
  | SF : DepType
deriving DecidableEq

/-- Dependency record: predecessorId (a task id or the START sentinel),
relation type, and signed lag (negative lag = lead). -/
structure Dep where
  predecessorId : NodeId
  dtype : DepType
  lag : ℚ
deriving DecidableEq

/-- Task record: the parts of the source Task record consumed by the
scheduler (id and ordered dependency list).  Sampled durations and costs
enter separately, as the runDurations/runCosts arrays do in the source. -/
structure PTask where
  id : ℕ
  deps : List Dep
deriving DecidableEq

/-- Pointwise update of a total map, modelling Map.set. -/
def updateFn {β : Type} (f : NodeId → β) (k : NodeId) (v : β) : NodeId → β :=
  fun x => if x = k then v else f x

/-- Triangular sampler (randomTriangular).  sqrt abstracts Math.sqrt, u the
uniform draw; binders lo/mode/hi stand for the source parameters min/mode/max
(renamed so the clamp can still call the min and max functions). -/
def randomTriangular (sqrt : ℚ → ℚ) (u : ℚ) (lo mode hi : ℚ) : ℚ :=
  if hi = lo then lo
  else
    let range := hi - lo
    let clampedMode := max lo (min mode hi)
    let c := (clampedMode - lo) / range
    if u < c then lo + sqrt (u * range * (clampedMode - lo))
    else hi - sqrt ((1 - u) * range * (hi - clampedMode))

/-- JS isFinite specialised to this embedding: exact rationals carry no
Infinity or NaN, so the predicate is constantly true. -/
def isFiniteQ (_ : ℚ) : Bool := true

/-- PERT sampler (randomPERT).  sqrt abstracts Math.sqrt (used by the
Triangular fallback), betaSample abstracts random.beta, u is the uniform draw
consumed by the fallback; lo/likely/hi stand for min/likely/max.  finishBeta
is the shared tail of the source: the isFinite/positivity guard followed by
the rescaled Beta draw. -/
def randomPERT (sqrt : ℚ → ℚ) (betaSample : ℚ → ℚ → ℚ) (u : ℚ)
    (lo likely hi : ℚ) (gamma : ℚ) : ℚ :=
  if hi = lo then lo
  else if hi < lo ∨ likely < lo ∨ likely > hi then likely
  else
    let range := hi - lo
    let clampedLikely := max lo (min likely hi)
    let mu := (lo + gamma * clampedLikely + hi) / (gamma + 2)
    let finishBeta : ℚ → ℚ → ℚ := fun alpha beta =>
      if isFiniteQ alpha = false ∨ isFiniteQ beta = false ∨ alpha ≤ 0 ∨ beta ≤ 0 then
        randomTriangular sqrt u lo clampedLikely hi
      else lo + betaSample alpha beta * range
    if mu = hi ∨ clampedLikely = mu then finishBeta (gamma + 1) 1
    else if mu = lo then finishBeta 1 (gamma + 1)
    else
      let muMinusMin := mu - lo
      let maxMinusMu := hi - mu
      let likelyMinusMu := clampedLikely - mu
      if likelyMinusMu = 0 ∨ muMinusMin = 0 ∨ range = 0 then
        randomTriangular sqrt u lo clampedLikely hi
      else
        let alpha := muMinusMin * (2 * clampedLikely - lo - hi) / (likelyMinusMu * range)
        let beta := alpha * maxMinusMu / muMinusMin
        finishBeta alpha beta

/-- Per-percentile linear interpolation on the sorted data (the forEach body
of getPercentiles): rank, floor/ceil indices, fractional weight, with the
boundary clamps to the last and first element. -/
def percentileValue (sortedData : List ℚ) (p : ℚ) : ℚ :=
  let n := sortedData.length
  let rank : ℚ := p / 100 * ((n : ℚ) - 1)
  let lowerIndex : ℤ := ⌊rank⌋
  let upperIndex : ℤ := ⌈rank⌉
  let weight : ℚ := rank - (lowerIndex : ℚ)
  if (n : ℤ) ≤ upperIndex then sortedData.getLastD 0
  else if lowerIndex < 0 then sortedData.headD 0
  else sortedData.getD lowerIndex.toNat 0 * (1 - weight) +
       sortedData.getD upperIndex.toNat 0 * weight

/-- getPercentiles: sort ascending, then interpolate each requested
percentile; the NaN map returned on empty data is modelled with none. -/
def getPercentiles (data : List ℚ) (percentiles : List ℚ) : List (ℚ × Option ℚ) :=
  if data = [] then percentiles.map (fun p => (p, none))
  else
    let sortedData := data.mergeSort (fun a b => decide (a ≤ b))
    percentiles.map (fun p => (p, some (percentileValue sortedData p)))

/-- Sample standard deviation with Bessel correction, as computed inline in
pearsonCorrelation: sqrt of Σ(v − mean)² / (n − 1). -/
def sampleStdDev {α : Type} [LinearOrderedField α] (sqrt : α → α) (l : List α) : α :=
  sqrt ((l.map (fun v => (v - l.sum / (l.length : α)) ^ 2)).sum / ((l.length : α) - 1))

/-- Deviation products (xᵢ − meanX)·(yᵢ − meanY) of the numerator loop of
pearsonCorrelation. -/
def deviationProducts {α : Type} [LinearOrderedField α] (meanX meanY : α)
    (x y : List α) : List α :=
  List.zipWith (fun a b => (a - meanX) * (b - meanY)) x y

/-- pearsonCorrelation.  The source computes every statistic with
n = x.length; past the first guard the two lengths are equal, so the inline
standard deviations coincide with sampleStdDev of each list. -/
def pearsonCorrelation {α : Type} [LinearOrderedField α] (sqrt : α → α)
    (x y : List α) : α :=
  if x.length ≤ 1 ∨ x.length ≠ y.length then 0
  else if sampleStdDev sqrt x = 0 ∨ sampleStdDev sqrt y = 0 then 0
  else
    let numerator :=
      (deviationProducts (x.sum / (x.length : α)) (y.sum / (x.length : α)) x y).sum
    let denominator := ((x.length : α) - 1) * sampleStdDev sqrt x * sampleStdDev sqrt y
    if denominator = 0 then 0
    else max (-1) (min 1 (numerator / denominator))

/-- Dependency graph of calculateCPM: node list in JS Set insertion order,
forward and reverse adjacency as total maps (a key that was never set reads
as the empty list; the source only reads such keys behind guards). -/
structure CPMGraph where
  nodes : List NodeId
  adj : NodeId → List NodeId
  revAdj : NodeId → List NodeId

/-- Insert into the node list with JS Set semantics (dedup, insertion order). -/
def insertNode (ns : List NodeId) (n : NodeId) : List NodeId :=
  if n ∈ ns then ns else ns ++ [n]

/-- Add edge i → j to both adjacency maps (the paired pushes in the source). -/
def addEdge (g : CPMGraph) (i j : NodeId) : CPMGraph :=
  { g with adj := updateFn g.adj i (g.adj i ++ [j]),
           revAdj := updateFn g.revAdj j (g.revAdj j ++ [i]) }

/-- Graph construction of calculateCPM: dependency edges guarded by
adj.has(predId) (true exactly for task ids and START), an implicit START edge
for every task without a real predecessor, an implicit END edge for every
task without a successor. -/
def buildGraph (tasks : List PTask) : CPMGraph :=
  let nodes := tasks.foldl (fun ns t => insertNode ns (NodeId.tid t.id))
    [NodeId.start, NodeId.finish]
  let adjKeys := tasks.map (fun t => NodeId.tid t.id) ++ [NodeId.start]
  let g0 : CPMGraph := ⟨nodes, fun _ => [], fun _ => []⟩
  let g1 := tasks.foldl (fun g t =>
    if t.deps.isEmpty then addEdge g NodeId.start (NodeId.tid t.id)
    else
      let g2 := t.deps.foldl (fun g d =>
        if d.predecessorId ∈ adjKeys then addEdge g d.predecessorId (NodeId.tid t.id)
        else g) g
      if ((g2.revAdj (NodeId.tid t.id)).filter (fun p => decide (p ≠ NodeId.start))).isEmpty
      then addEdge g2 NodeId.start (NodeId.tid t.id)
      else g2) g0
  tasks.foldl (fun g t =>
    if (g.adj (NodeId.tid t.id)).isEmpty then addEdge g (NodeId.tid t.id) NodeId.finish
    else g) g1

/-- Initial indegrees: one increment per edge occurrence.  ℤ matches the JS
number arithmetic of the loop, which can decrement past zero. -/
def initInDegree (g : CPMGraph) : NodeId → ℤ :=
  g.nodes.foldl (fun d n => (g.adj n).foldl (fun d2 v => updateFn d2 v (d2 v + 1)) d)
    (fun _ => 0)

/-- Kahn worklist loop: pop the queue head, decrement each successor, enqueue
successors that reach indegree zero.  Fuel bounds the iterations; kahnFuel
exceeds every possible number of queue insertions, so the queue always drains
before the fuel does. -/
def kahnGo (g : CPMGraph) : ℕ → List NodeId → (NodeId → ℤ) → List NodeId → List NodeId
  | 0, _, _, topo => topo
  | _ + 1, [], _, topo => topo
  | fuel + 1, u :: rest, indeg, topo =>
      let res := (g.adj u).foldl
        (fun (p : (NodeId → ℤ) × List NodeId) v =>
          let dv := p.1 v - 1
          (updateFn p.1 v dv, if dv = 0 then p.2 ++ [v] else p.2))
        (indeg, rest)
      kahnGo g fuel res.2 res.1 (topo ++ [u])

/-- Fuel bound for the Kahn loop: nodes plus total edge occurrences plus one. -/
def kahnFuel (g : CPMGraph) : ℕ :=
  g.nodes.length + (g.nodes.map (fun n => (g.adj n).length)).sum + 1

/-- Topological order via Kahn's algorithm: initial queue holds the
zero-indegree nodes in node order. -/
def kahnRun (g : CPMGraph) : List NodeId :=
  let indeg := initInDegree g
  kahnGo g (kahnFuel g) (g.nodes.filter (fun n => decide (indeg n = 0))) indeg []

/-- Task list paired with this trial's sampled durations (the taskMap values
{...task, index, duration: runDurations[index]}). -/
def withDurs (tasks : List PTask) (durs : List ℚ) : List (PTask × ℚ) :=
  tasks.mapIdx (fun idx t => (t, durs.getD idx 0))

/-- taskMap lookup; a JS object or Map written by successive assignments
keeps the last binding for a key. -/
def taskLookup (tasks : List PTask) (durs : List ℚ) (j : NodeId) : Option (PTask × ℚ) :=
  (withDurs tasks durs).foldl (fun acc p => if NodeId.tid p.1.id = j then some p else acc)
    none

/-- Math.max(0, taskJ?.duration ?? 0): both passes clamp the sampled duration
at 0. -/
def clampedDur (tasks : List PTask) (durs : List ℚ) (j : NodeId) : ℚ :=
  max 0 (match taskLookup tasks durs j with
         | some p => p.2
         | none => 0)

/-- requiredStart of the forward pass for node j with duration durJ and
predecessor i: dependency looked up in j's list (defaults FS, lag 0), then
the four-way switch FS/SS/FF/SF. -/
def requiredStartOf (tasks : List PTask) (durs : List ℚ) (es ef : NodeId → ℚ)
    (durJ : ℚ) (j i : NodeId) : ℚ :=
  let dep := match taskLookup tasks durs j with
    | some p => p.1.deps.find? (fun (d : Dep) => decide (d.predecessorId = i))
    | none => none
  let lag := match dep with
    | some d => d.lag
    | none => 0
  match (match dep with | some d => d.dtype | none => DepType.FS) with
  | DepType.FS => ef i + lag
  | DepType.SS => es i + lag
  | DepType.FF => ef i + lag - durJ
  | DepType.SF => es i + lag - durJ

/-- One forward-pass iteration (the topoOrder.forEach body): START is
skipped; otherwise the node's earliest start is the fold of requiredStart
over its predecessors, seeded with the accumulator value 0. -/
def forwardStep (tasks : List PTask) (durs : List ℚ) (g : CPMGraph)
    (st : (NodeId → ℚ) × (NodeId → ℚ)) (j : NodeId) : (NodeId → ℚ) × (NodeId → ℚ) :=
  if j = NodeId.start then st
  else
    let durJ := if j = NodeId.finish then 0 else clampedDur tasks durs j
    let esJ := (g.revAdj j).foldl
      (fun acc i => max acc (requiredStartOf tasks durs st.1 st.2 durJ j i)) 0
    (updateFn st.1 j esJ, updateFn st.2 j (esJ + durJ))

/-- Forward pass: earliest start/finish maps, all nodes initialised to 0. -/
def forwardPass (tasks : List PTask) (durs : List ℚ) (g : CPMGraph)
    (topo : List NodeId) : (NodeId → ℚ) × (NodeId → ℚ) :=
  topo.foldl (forwardStep tasks durs g) (fun _ => 0, fun _ => 0)

/-- requiredFinish of the backward pass for node i with duration durI and
successor j: dependency looked up in successor j's list with predecessor i. -/
def requiredFinishOf (tasks : List PTask) (durs : List ℚ) (ls lf : NodeId → ℚ)
    (durI : ℚ) (i j : NodeId) : ℚ :=
  let dep := match taskLookup tasks durs j with
    | some p => p.1.deps.find? (fun (d : Dep) => decide (d.predecessorId = i))
    | none => none
  let lag := match dep with
    | some d => d.lag
    | none => 0
  match (match dep with | some d => d.dtype | none => DepType.FS) with
  | DepType.FS => ls j - lag
  | DepType.SS => ls j - lag + durI
  | DepType.FF => lf j - lag
  | DepType.SF => lf j - lag + durI

/-- One backward-pass iteration: END is skipped; the node's latest finish is
the fold of requiredFinish over its successors seeded with totalDuration,
and its latest start is latest finish minus the clamped duration. -/
def backwardStep (tasks : List PTask) (durs : List ℚ) (g : CPMGraph)
    (totalDuration : ℚ) (st : (NodeId → ℚ) × (NodeId → ℚ)) (i : NodeId) :
    (NodeId → ℚ) × (NodeId → ℚ) :=
  if i = NodeId.finish then st
  else
    let durI := if i = NodeId.start then 0 else clampedDur tasks durs i
    let lfI := (g.adj i).foldl
      (fun acc j => min acc (requiredFinishOf tasks durs st.1 st.2 durI i j)) totalDuration
    (updateFn st.1 i (lfI - durI), updateFn st.2 i lfI)

/-- Backward pass over the reversed topological order: latest start/finish
maps, all nodes initialised to totalDuration. -/
def backwardPass (tasks : List PTask) (durs : List ℚ) (g : CPMGraph)
    (topo : List NodeId) (totalDuration : ℚ) : (NodeId → ℚ) × (NodeId → ℚ) :=
  topo.reverse.foldl (backwardStep tasks durs g totalDuration)
    (fun _ => totalDuration, fun _ => totalDuration)

def MIN_SLACK_TOLERANCE : ℚ := 1 / 1000000

/-- Critical-path detection: a task is marked critical when |slack| is below
the tolerance OR its earliest finish is within the tolerance of the project
finish. -/
def criticalPathOf (tasks : List PTask) (es ls ef : NodeId → ℚ)
    (projectFinish : ℚ) : List NodeId :=
  (tasks.filter (fun t =>
      decide (abs (ls (NodeId.tid t.id) - es (NodeId.tid t.id)) < MIN_SLACK_TOLERANCE) ||
      decide (abs (ef (NodeId.tid t.id) - projectFinish) < MIN_SLACK_TOLERANCE))).map
    (fun t => NodeId.tid t.id)

/-- Result record of one scheduler run (totalDuration, criticalPathTasks,
per-task earliest start/finish). -/
structure CPMResult where
  totalDuration : ℚ
  criticalPathTasks : List NodeId
  taskTimings : List (NodeId × ℚ × ℚ)
deriving DecidableEq

/-- calculateCPM: build the graph, topologically sort (none on a cycle, the
source returns null), run the forward and backward passes, mark the critical
path and report per-task timings. -/
def calculateCPM (tasks : List PTask) (durs : List ℚ) : Option CPMResult :=
  let g := buildGraph tasks
  let topo := kahnRun g
  if topo.length = g.nodes.length then
    let fwd := forwardPass tasks durs g topo
    let bwd := backwardPass tasks durs g topo (fwd.2 NodeId.finish)
    some ⟨fwd.2 NodeId.finish,
          criticalPathOf tasks fwd.1 bwd.1 fwd.2 (fwd.2 NodeId.finish),
          tasks.map (fun t => (NodeId.tid t.id, fwd.1 (NodeId.tid t.id),
            fwd.2 (NodeId.tid t.id)))⟩
  else none

/-- One Monte Carlo trial result (totalDuration, totalCost, criticalPathTasks). -/
structure SimRun where
  totalDuration : ℚ
  totalCost : ℚ
  criticalPathTasks : List NodeId
deriving DecidableEq

/-- Mutable accumulators of runMonteCarloSimulation.  Task ids are unique, so
the per-id accumulators (allTaskTimings keyed by task.id in the source) are
represented positionally, parallel to the task list, like the per-index
sample arrays are in the source. -/
structure MCState where
  simulationRuns : List SimRun
  taskDurationSamples : List (List ℚ)
  taskCostSamples : List (List ℚ)
  criticalCounts : List ℕ
  allTaskTimings : List (List ℚ × List ℚ)
deriving DecidableEq

/-- Lookup into the taskTimings object returned by calculateCPM (successive
assignments keep the last binding for a key). -/
def timingsLookup (tt : List (NodeId × ℚ × ℚ)) (k : NodeId) : Option (ℚ × ℚ) :=
  tt.foldl (fun acc e => if e.1 = k then some e.2 else acc) none

/-- Body of the Monte Carlo loop for one trial: push this trial's sampled
duration and cost for every task, then run the scheduler; on success append
the run, bump critical counters and record timings; on failure (cycle) pop
the samples just pushed and count nothing. -/
def mcTrial (tasks : List PTask) (st : MCState) (runDurations runCosts : List ℚ) :
    MCState :=
  let pushedD := List.zipWith (fun l v => l ++ [v]) st.taskDurationSamples runDurations
  let pushedC := List.zipWith (fun l v => l ++ [v]) st.taskCostSamples runCosts
  match calculateCPM tasks runDurations with
  | some r =>
      { simulationRuns :=
          st.simulationRuns ++ [⟨r.totalDuration, runCosts.sum, r.criticalPathTasks⟩]
        taskDurationSamples := pushedD
        taskCostSamples := pushedC
        criticalCounts := List.zipWith
          (fun c t => if NodeId.tid t.id ∈ r.criticalPathTasks then c + 1 else c)
          st.criticalCounts tasks
        allTaskTimings := List.zipWith
          (fun e t =>
            match timingsLookup r.taskTimings (NodeId.tid t.id) with
            | some tv => (e.1 ++ [tv.1], e.2 ++ [tv.2])
            | none => e)
          st.allTaskTimings tasks }
  | none =>
      { st with taskDurationSamples := pushedD.map List.dropLast
                taskCostSamples := pushedC.map List.dropLast }

/-- Aggregated analysis record (means, population standard deviations,
percentile maps, sensitivities, criticality, cruciality). -/
structure Analysis where
  meanDuration : ℚ
  stdDevDuration : ℚ
  meanCost : ℚ
  stdDevCost : ℚ
  percentilesDuration : List (ℚ × Option ℚ)
  percentilesCost : List (ℚ × Option ℚ)
  durationSensitivity : List ℚ
  costSensitivity : List ℚ
  criticalityIndex : List ℚ
  scheduleSensitivityIndexProject : ℚ
  scheduleSensitivityIndexTask : List ℚ
  durationCruciality : List ℚ
deriving DecidableEq

/-- Build the analysis object from the accumulated state (source lines
454-486); sqrt abstracts Math.sqrt in the standard deviations and in the
per-task Pearson correlations. -/
def buildAnalysis (sqrt : ℚ → ℚ) (tasks : List PTask) (st : MCState) : Analysis :=
  let validRuns := st.simulationRuns.length
  let totalDurations := st.simulationRuns.map (fun r => r.totalDuration)
  let totalCosts := st.simulationRuns.map (fun r => r.totalCost)
  let meanDuration := totalDurations.sum / (validRuns : ℚ)
  let stdDevDuration :=
    sqrt ((totalDurations.map (fun v => (v - meanDuration) ^ 2)).sum / (validRuns : ℚ))
  let meanCost := totalCosts.sum / (validRuns : ℚ)
  let stdDevCost :=
    sqrt ((totalCosts.map (fun v => (v - meanCost) ^ 2)).sum / (validRuns : ℚ))
  let durationSensitivity := (List.range tasks.length).map
    (fun idx => pearsonCorrelation sqrt (st.taskDurationSamples.getD idx []) totalDurations)
  let costSensitivity := (List.range tasks.length).map
    (fun idx => pearsonCorrelation sqrt (st.taskCostSamples.getD idx []) totalCosts)
  let criticalityIndex := st.criticalCounts.map (fun c => (c : ℚ) / (validRuns : ℚ))
  let ssiTask := (List.range tasks.length).map
    (fun idx => criticalityIndex.getD idx 0 * durationSensitivity.getD idx 0)
  { meanDuration := meanDuration
    stdDevDuration := stdDevDuration
    meanCost := meanCost
    stdDevCost := stdDevCost
    percentilesDuration := getPercentiles totalDurations [10, 25, 50, 75, 80, 90, 95]
    percentilesCost := getPercentiles totalCosts [10, 25, 50, 75, 80, 90, 95]
    durationSensitivity := durationSensitivity
    costSensitivity := costSensitivity
    criticalityIndex := criticalityIndex
    scheduleSensitivityIndexProject :=
      if meanDuration > 0 then stdDevDuration / meanDuration else 0
    scheduleSensitivityIndexTask := ssiTask
    durationCruciality := ssiTask }

/-- Result contract of runMonteCarloSimulation; analysis is null (none) when
no trial succeeded. -/
structure MCResult where
  simulationRuns : List SimRun
  analysis : Option Analysis
  taskDurationSamples : List (List ℚ)
  taskCostSamples : List (List ℚ)
  allTaskTimings : List (List ℚ × List ℚ)
deriving DecidableEq

/-- Fresh accumulators for one batch. -/
def mcInitState (tasks : List PTask) : MCState :=
  ⟨[], tasks.map (fun _ => []), tasks.map (fun _ => []), tasks.map (fun _ => 0),
    tasks.map (fun _ => ([], []))⟩

/-- runMonteCarloSimulation.  The per-task sampling switch (Triangular, PERT,
Normal, LogNormal for durations; Triangular for costs) draws from the global
random generator; it is modelled by the oracles durOf and costOf giving the
value sampled for trial i and task index idx, so every theorem below
quantifies over all possible random draws.  If zero trials succeed the
engine returns the explicit empty result instead of dividing by zero. -/
def mcLoop (tasks : List PTask) (numRuns : ℕ) (durOf costOf : ℕ → ℕ → ℚ) : MCState :=
  (List.range numRuns).foldl
    (fun st i => mcTrial tasks st
      ((List.range tasks.length).map (durOf i))
      ((List.range tasks.length).map (costOf i)))
    (mcInitState tasks)

/-- runMonteCarloSimulation: run the trial loop, then either the explicit
empty result (zero valid runs) or the populated result with the analysis. -/
def runMonteCarloSimulation (tasks : List PTask) (numRuns : ℕ)
    (durOf costOf : ℕ → ℕ → ℚ) (sqrt : ℚ → ℚ) : MCResult :=
  let final := mcLoop tasks numRuns durOf costOf
  if final.simulationRuns.length = 0 then ⟨[], none, [], [], []⟩
  else ⟨final.simulationRuns, some (buildAnalysis sqrt tasks final),
        final.taskDurationSamples, final.taskCostSamples, final.allTaskTimings⟩

/-- taskMap lookup of the runSimulation pre-check (Map built by successive
set keeps the last binding). -/
def taskMapGet (tasks : List PTask) (key : NodeId) : Option PTask :=
  tasks.foldl (fun acc t => if NodeId.tid t.id = key then some t else acc) none

/-- Direct-cycle pre-check of runSimulation (source lines 1056-1067): some
task has a dependency whose predecessor in turn depends directly back on it. -/
def hasDirectCycle (tasks : List PTask) : Bool :=
  tasks.any (fun t => t.deps.any (fun d =>
    match taskMapGet tasks d.predecessorId with
    | some pred => pred.deps.any (fun pd => decide (pd.predecessorId = NodeId.tid t.id))
    | none => false))

/-- Outcome of the runSimulation callback: the empty-task guard, the
StructuralCycle rejection of the direct-cycle pre-check (setError and return
before any trial), or the completed Monte Carlo batch. -/
inductive SimOutcome where
  | noTasks : SimOutcome
  | structuralCycle : SimOutcome
  | completed : MCResult → SimOutcome
deriving DecidableEq

/-- runSimulation: reject empty task lists, then reject direct predecessor
cycles before invoking the Monte Carlo engine; otherwise run the batch. -/
def runSimulation (tasks : List PTask) (numRuns : ℕ) (durOf costOf : ℕ → ℕ → ℚ)
    (sqrt : ℚ → ℚ) : SimOutcome :=
  if tasks = [] then SimOutcome.noTasks
  else if hasDirectCycle tasks then SimOutcome.structuralCycle
  else SimOutcome.completed (runMonteCarloSimulation tasks numRuns durOf costOf sqrt)

/-! Concrete fixtures used by witnesses and counterexamples. -/

/-- Three-task FS chain with lag 0. -/
def chainTasks : List PTask :=
  [⟨1, []⟩, ⟨2, [⟨NodeId.tid 1, DepType.FS, 0⟩]⟩, ⟨3, [⟨NodeId.tid 2, DepType.FS, 0⟩]⟩]

/-- Two tasks depending directly on each other (task 1 → task 2, task 2 → task 1). -/
def cyclePair : List PTask :=
  [⟨1, [⟨NodeId.tid 2, DepType.FS, 0⟩]⟩, ⟨2, [⟨NodeId.tid 1, DepType.FS, 0⟩]⟩]

/-- Task 2 depends on task 1 (duration 5) with FS lag −7, a lead longer than
the predecessor's duration, so the required start of task 2 is negative. -/
def negLagTasks : List PTask :=
  [⟨1, []⟩, ⟨2, [⟨NodeId.tid 1, DepType.FS, -7⟩]⟩]

/-! Helper lemmas. -/

lemma taskMapGet_skip (tasks : List PTask) (key : NodeId) (acc : Option PTask)
    (h : ∀ t ∈ tasks, NodeId.tid t.id ≠ key) :
    tasks.foldl (fun a t => if NodeId.tid t.id = key then some t else a) acc = acc := by
  induction tasks generalizing acc with
  | nil => rfl
  | cons a2 ts ih =>
      rw [List.foldl_cons, if_neg (h a2 (List.mem_cons_self a2 ts))]
      exact ih acc (fun t htm => h t (List.mem_cons_of_mem a2 htm))

lemma taskMapGet_go_mem (tasks : List PTask) (B : PTask) (acc : Option PTask)
    (hnodup : (tasks.map PTask.id).Nodup) (hB : B ∈ tasks) :
    tasks.foldl (fun a t => if NodeId.tid t.id = NodeId.tid B.id then some t else a) acc
      = some B := by
  induction tasks generalizing acc with
  | nil => cases hB
  | cons a2 ts ih =>
      rw [List.map_cons, List.nodup_cons] at hnodup
      rw [List.foldl_cons]
      rcases List.mem_cons.mp hB with rfl | hBts
      · rw [if_pos rfl]
        refine taskMapGet_skip ts _ _ (fun t htm he => hnodup.1 ?_)
        have hid : t.id = B.id := by simpa using he
        exact hid ▸ List.mem_map_of_mem PTask.id htm
      · exact ih _ hnodup.2 hBts


lemma taskMapGet_mem (tasks : List PTask) (B : PTask)
    (hnodup : (tasks.map PTask.id).Nodup) (hB : B ∈ tasks) :
    taskMapGet tasks (NodeId.tid B.id) = some B :=
  taskMapGet_go_mem tasks B none hnodup hB

lemma foldl_max_le_init (l : List NodeId) (f : NodeId → ℚ) (b : ℚ) :
    b ≤ l.foldl (fun acc i => max acc (f i)) b := by
  induction l generalizing b with
  | nil => exact le_refl b
  | cons a t ih =>
      rw [List.foldl_cons]
      exact le_trans (le_max_left b (f a)) (ih (max b (f a)))

lemma forwardStep_inv (tasks : List PTask) (durs : List ℚ) (g : CPMGraph)
    (st : (NodeId → ℚ) × (NodeId → ℚ)) (j : NodeId)
    (hst : ∀ n, 0 ≤ st.1 n ∧ st.1 n ≤ st.2 n) :
    ∀ n, 0 ≤ (forwardStep tasks durs g st j).1 n ∧
      (forwardStep tasks durs g st j).1 n ≤ (forwardStep tasks durs g st j).2 n := by
  intro n
  unfold forwardStep
  by_cases hj : j = NodeId.start
  · rw [if_pos hj]; exact hst n
  · rw [if_neg hj]
    by_cases hn : n = j
    · subst hn
      have hes : (0 : ℚ) ≤ (g.revAdj n).foldl
          (fun acc i => max acc (requiredStartOf tasks durs st.1 st.2
            (if n = NodeId.finish then 0 else clampedDur tasks durs n) n i)) 0 :=
        foldl_max_le_init _ _ 0
      have hdur : (0 : ℚ) ≤ (if n = NodeId.finish then 0 else clampedDur tasks durs n) := by
        by_cases hf : n = NodeId.finish
        · rw [if_pos hf]
        · rw [if_neg hf]; exact le_max_left 0 _
      constructor
      · simpa [updateFn] using hes
      · show (if n = n then _ else st.1 n) ≤ (if n = n then _ else st.2 n)
        rw [if_pos rfl, if_pos rfl]
        linarith
    · constructor
      · simpa [updateFn, hn] using (hst n).1
      · simpa [updateFn, hn] using (hst n).2

lemma forwardList_inv (tasks : List PTask) (durs : List ℚ) (g : CPMGraph)
    (L : List NodeId) (st : (NodeId → ℚ) × (NodeId → ℚ))
    (hst : ∀ n, 0 ≤ st.1 n ∧ st.1 n ≤ st.2 n) :
    ∀ n, 0 ≤ (L.foldl (forwardStep tasks durs g) st).1 n ∧
      (L.foldl (forwardStep tasks durs g) st).1 n ≤
        (L.foldl (forwardStep tasks durs g) st).2 n := by
  induction L generalizing st with
  | nil => exact hst
  | cons j t ih =>
      rw [List.foldl_cons]
      exact ih (forwardStep tasks durs g st j) (forwardStep_inv tasks durs g st j hst)

lemma forwardPass_inv (tasks : List PTask) (durs : List ℚ) (g : CPMGraph)
    (topo : List NodeId) :
    ∀ n, 0 ≤ (forwardPass tasks durs g topo).1 n ∧
      (forwardPass tasks durs g topo).1 n ≤ (forwardPass tasks durs g topo).2 n :=
  forwardList_inv tasks durs g topo (fun _ => 0, fun _ => 0)
    (fun _ => ⟨le_refl 0, le_refl 0⟩)

/-! Claims. -/

/-- Claim C1: for every task set containing a direct predecessor cycle (task
A depends on B and B depends on A), and for every run count and randomness,
the runSimulation pre-check rejects the whole batch as the StructuralCycle
outcome: the Monte Carlo engine is never invoked, so no trial is sampled or
scheduled and the cycle is not re-discovered N times. -/
theorem claim1_direct_cycle_rejected (tasks : List PTask) (numRuns : ℕ)
    (durOf costOf : ℕ → ℕ → ℚ) (sqrt : ℚ → ℚ) (A B : PTask)
    (hnodup : (tasks.map PTask.id).Nodup)
    (hA : A ∈ tasks) (hB : B ∈ tasks)
    (hAB : ∃ d ∈ A.deps, d.predecessorId = NodeId.tid B.id)
    (hBA : ∃ d ∈ B.deps, d.predecessorId = NodeId.tid A.id) :
    runSimulation tasks numRuns durOf costOf sqrt = SimOutcome.structuralCycle := by
  have hcyc : hasDirectCycle tasks = true := by
    unfold hasDirectCycle
    rw [List.any_eq_true]
    refine ⟨A, hA, ?_⟩
    rw [List.any_eq_true]
    obtain ⟨d, hd, hdp⟩ := hAB
    refine ⟨d, hd, ?_⟩
    rw [hdp, taskMapGet_mem tasks B hnodup hB]
    simp only [List.any_eq_true]
    obtain ⟨d2, hd2, hdp2⟩ := hBA
    exact ⟨d2, hd2, by simp [hdp2]⟩
  unfold runSimulation
  rw [if_neg (List.ne_nil_of_mem hA), if_pos hcyc]

/-- Witness for C1 at the concrete two-task direct cycle. -/
theorem claim1_witness :
    runSimulation cyclePair 5 (fun _ _ => 1) (fun _ _ => 2) (fun q => q) =
      SimOutcome.structuralCycle :=
  claim1_direct_cycle_rejected cyclePair 5 (fun _ _ => 1) (fun _ _ => 2) (fun q => q)
    ⟨1, [⟨NodeId.tid 2, DepType.FS, 0⟩]⟩ ⟨2, [⟨NodeId.tid 1, DepType.FS, 0⟩]⟩
    (by decide) (by decide) (by decide) (by decide) (by decide)

/-- Claim C4: on the linear chain of three FS lag-0 tasks with deterministic
durations 5, 3, 4 — Triangular(d,d,d) returns d for any draw because max =
min — the scheduler reports totalDuration 12, marks all three tasks critical,
each with zero slack, and the END node's earliest finish equals its latest
finish. -/
theorem claim4_linear_chain :
    (∀ (sqrt : ℚ → ℚ) (u : ℚ),
      randomTriangular sqrt u 5 5 5 = 5 ∧ randomTriangular sqrt u 3 3 3 = 3 ∧
      randomTriangular sqrt u 4 4 4 = 4) ∧
    calculateCPM chainTasks [5, 3, 4] =
      some ⟨12, [NodeId.tid 1, NodeId.tid 2, NodeId.tid 3],
        [(NodeId.tid 1, 0, 5), (NodeId.tid 2, 5, 8), (NodeId.tid 3, 8, 12)]⟩ ∧
    ((backwardPass chainTasks [5, 3, 4] (buildGraph chainTasks)
        (kahnRun (buildGraph chainTasks)) 12).1 (NodeId.tid 1) -
      (forwardPass chainTasks [5, 3, 4] (buildGraph chainTasks)
        (kahnRun (buildGraph chainTasks))).1 (NodeId.tid 1) = 0) ∧
    ((backwardPass chainTasks [5, 3, 4] (buildGraph chainTasks)
        (kahnRun (buildGraph chainTasks)) 12).1 (NodeId.tid 2) -
      (forwardPass chainTasks [5, 3, 4] (buildGraph chainTasks)
        (kahnRun (buildGraph chainTasks))).1 (NodeId.tid 2) = 0) ∧
    ((backwardPass chainTasks [5, 3, 4] (buildGraph chainTasks)
        (kahnRun (buildGraph chainTasks)) 12).1 (NodeId.tid 3) -
      (forwardPass chainTasks [5, 3, 4] (buildGraph chainTasks)
        (kahnRun (buildGraph chainTasks))).1 (NodeId.tid 3) = 0) ∧
    (forwardPass chainTasks [5, 3, 4] (buildGraph chainTasks)
        (kahnRun (buildGraph chainTasks))).2 NodeId.finish =
      (backwardPass chainTasks [5, 3, 4] (buildGraph chainTasks)
        (kahnRun (buildGraph chainTasks)) 12).2 NodeId.finish := by
  refine ⟨fun sqrt u => ⟨?_, ?_, ?_⟩, ?_, ?_, ?_, ?_, ?_⟩
  · simp [randomTriangular]
  · simp [randomTriangular]
  · simp [randomTriangular]
  · with_unfolding_all decide
  · with_unfolding_all decide
  · with_unfolding_all decide
  · with_unfolding_all decide
  · with_unfolding_all decide

/-- Claim C6: if zero trials succeed, runMonteCarloSimulation returns the
explicit empty result — empty run list, null analysis, empty sample and
timing collections — instead of computing statistics that would divide by
the zero valid-run count. -/
theorem claim6_zero_valid_empty (tasks : List PTask) (numRuns : ℕ)
    (durOf costOf : ℕ → ℕ → ℚ) (sqrt : ℚ → ℚ)
    (h : (runMonteCarloSimulation tasks numRuns durOf costOf sqrt).simulationRuns = []) :
    runMonteCarloSimulation tasks numRuns durOf costOf sqrt = ⟨[], none, [], [], []⟩ := by
  by_cases hz : (mcLoop tasks numRuns durOf costOf).simulationRuns.length = 0
  · simp only [runMonteCarloSimulation, if_pos hz]
  · exfalso
    simp only [runMonteCarloSimulation, if_neg hz] at h
    exact hz (by rw [h]; rfl)

/-- Witness for C6: the cyclic pair makes every trial fail. -/
theorem claim6_witness :
    runMonteCarloSimulation cyclePair 2 (fun _ _ => 1) (fun _ _ => 2) (fun q => q) =
      ⟨[], none, [], [], []⟩ :=
  claim6_zero_valid_empty cyclePair 2 (fun _ _ => 1) (fun _ _ => 2) (fun q => q)
    (by with_unfolding_all decide)

/-- Claim C10: the scheduler clamps every sampled duration at 0
(Math.max(0, duration)) — clampedDur is nonnegative for every node — so on
every acyclic input (calculateCPM succeeds) every reported task timing
satisfies 0 ≤ earliestStart ≤ earliestFinish and the returned totalDuration
is nonnegative, even when a sampler produced a negative duration. -/
theorem claim10_nonneg_timings (tasks : List PTask) (durs : List ℚ) (r : CPMResult)
    (h : calculateCPM tasks durs = some r) :
    (∀ j, 0 ≤ clampedDur tasks durs j) ∧
    (∀ e ∈ r.taskTimings, 0 ≤ e.2.1 ∧ e.2.1 ≤ e.2.2) ∧
    0 ≤ r.totalDuration := by
  refine ⟨fun j => le_max_left 0 _, ?_⟩
  simp only [calculateCPM] at h
  split at h
  · obtain rfl := (Option.some.inj h).symm
    constructor
    · intro e he
      simp only [List.mem_map] at he
      obtain ⟨t, _, rfl⟩ := he
      have hinv := forwardPass_inv tasks durs (buildGraph tasks)
        (kahnRun (buildGraph tasks)) (NodeId.tid t.id)
      exact ⟨hinv.1, hinv.2⟩
    · have hinv := forwardPass_inv tasks durs (buildGraph tasks)
        (kahnRun (buildGraph tasks)) NodeId.finish
      exact le_trans hinv.1 hinv.2
  · exact Option.noConfusion h

lemma forwardStep_other (tasks : List PTask) (durs : List ℚ) (g : CPMGraph)
    (st : (NodeId → ℚ) × (NodeId → ℚ)) (j n : NodeId) (hn : n ≠ j) :
    (forwardStep tasks durs g st j).1 n = st.1 n ∧
    (forwardStep tasks durs g st j).2 n = st.2 n := by
  unfold forwardStep
  by_cases hj : j = NodeId.start
  · rw [if_pos hj]; exact ⟨rfl, rfl⟩
  · rw [if_neg hj]
    constructor
    · show (if n = j then _ else st.1 n) = st.1 n
      rw [if_neg hn]
    · show (if n = j then _ else st.2 n) = st.2 n
      rw [if_neg hn]

lemma forwardList_other (tasks : List PTask) (durs : List ℚ) (g : CPMGraph)
    (S : List NodeId) (n : NodeId) :
    ∀ st : (NodeId → ℚ) × (NodeId → ℚ), n ∉ S →
      (S.foldl (forwardStep tasks durs g) st).1 n = st.1 n ∧
      (S.foldl (forwardStep tasks durs g) st).2 n = st.2 n := by
  induction S with
  | nil => exact fun st _ => ⟨rfl, rfl⟩
  | cons a t ih =>
      intro st hn
      have hna : n ≠ a := fun he => hn (he ▸ List.mem_cons_self a t)
      have hnt : n ∉ t := fun he => hn (List.mem_cons_of_mem a he)
      rw [List.foldl_cons]
      obtain ⟨h1, h2⟩ := ih (forwardStep tasks durs g st a) hnt
      obtain ⟨h3, h4⟩ := forwardStep_other tasks durs g st a n hna
      exact ⟨h1.trans h3, h2.trans h4⟩

lemma foldl_max_congr (f1 f2 : NodeId → ℚ) :
    ∀ (l : List NodeId) (b : ℚ), (∀ i ∈ l, f1 i = f2 i) →
      l.foldl (fun acc i => max acc (f1 i)) b = l.foldl (fun acc i => max acc (f2 i)) b := by
  intro l
  induction l with
  | nil => exact fun b _ => rfl
  | cons a t ih =>
      intro b h
      rw [List.foldl_cons, List.foldl_cons, h a (List.mem_cons_self a t)]
      exact ih (max b (f2 a)) (fun i hi => h i (List.mem_cons_of_mem a hi))

lemma requiredStartOf_congr (tasks : List PTask) (durs : List ℚ)
    (es1 ef1 es2 ef2 : NodeId → ℚ) (durJ : ℚ) (j i : NodeId)
    (hes : es1 i = es2 i) (hef : ef1 i = ef2 i) :
    requiredStartOf tasks durs es1 ef1 durJ j i =
      requiredStartOf tasks durs es2 ef2 durJ j i := by
  unfold requiredStartOf
  rw [hes, hef]

/-- Claim C3: for every acyclic task set (distinct ids) and every duration
assignment, a task is marked on the critical path exactly when
|latestStart − earliestStart| < 1e-6 OR |earliestFinish − projectFinish| <
1e-6; both disjuncts are present, so a task whose earliest finish coincides
with the project finish is marked critical even with nonzero slack. -/
theorem claim3_critical_marking (tasks : List PTask) (durs : List ℚ) (r : CPMResult)
    (hnodup : (tasks.map PTask.id).Nodup)
    (h : calculateCPM tasks durs = some r) (t : PTask) (ht : t ∈ tasks) :
    NodeId.tid t.id ∈ r.criticalPathTasks ↔
      (abs ((backwardPass tasks durs (buildGraph tasks) (kahnRun (buildGraph tasks))
            ((forwardPass tasks durs (buildGraph tasks) (kahnRun (buildGraph tasks))).2
              NodeId.finish)).1 (NodeId.tid t.id) -
          (forwardPass tasks durs (buildGraph tasks) (kahnRun (buildGraph tasks))).1
            (NodeId.tid t.id)) < MIN_SLACK_TOLERANCE ∨
        abs ((forwardPass tasks durs (buildGraph tasks) (kahnRun (buildGraph tasks))).2
            (NodeId.tid t.id) -
          (forwardPass tasks durs (buildGraph tasks) (kahnRun (buildGraph tasks))).2
            NodeId.finish) < MIN_SLACK_TOLERANCE) := by
  simp only [calculateCPM] at h
  split at h
  · obtain rfl := (Option.some.inj h).symm
    show NodeId.tid t.id ∈ criticalPathOf tasks _ _ _ _ ↔ _
    unfold criticalPathOf
    rw [List.mem_map]
    constructor
    · rintro ⟨t2, ht2, heq⟩
      rw [List.mem_filter] at ht2
      have hid : t2.id = t.id := by simpa using heq
      have ht2t : t2 = t := List.inj_on_of_nodup_map hnodup ht2.1 ht hid
      subst ht2t
      simpa [Bool.or_eq_true, decide_eq_true_eq] using ht2.2
    · intro hcond
      refine ⟨t, List.mem_filter.mpr ⟨ht, ?_⟩, rfl⟩
      simpa [Bool.or_eq_true, decide_eq_true_eq] using hcond
  · exact Option.noConfusion h

/-- Witness for C3: task 1 of the concrete chain is marked critical. -/
theorem claim3_witness :
    NodeId.tid 1 ∈ (CPMResult.mk 12 [NodeId.tid 1, NodeId.tid 2, NodeId.tid 3]
      [(NodeId.tid 1, 0, 5), (NodeId.tid 2, 5, 8),
        (NodeId.tid 3, 8, 12)]).criticalPathTasks :=
  (claim3_critical_marking chainTasks [5, 3, 4] _ (by decide)
      (by with_unfolding_all decide) ⟨1, []⟩ (by decide)).mpr
    (by with_unfolding_all decide)

/-- Claim C2 counterexample: task 2 depends on task 1 (duration 5) through
FS with lag −7, so its only required start is earliestFinish(1) + lag = −2;
the claim says this negative required start is taken as-is, yet the
scheduler reports earliestStart(2) = 0 (and earliestFinish(2) = 5), because
the forward fold seeds its maximum with the accumulator value 0. -/
theorem claim2_counterexample :
    (calculateCPM negLagTasks [5, 5]).map (fun r => r.taskTimings) =
      some [(NodeId.tid 1, 0, 5), (NodeId.tid 2, 0, 5)] ∧
    requiredStartOf negLagTasks [5, 5]
        (forwardPass negLagTasks [5, 5] (buildGraph negLagTasks)
          (kahnRun (buildGraph negLagTasks))).1
        (forwardPass negLagTasks [5, 5] (buildGraph negLagTasks)
          (kahnRun (buildGraph negLagTasks))).2
        (clampedDur negLagTasks [5, 5] (NodeId.tid 2)) (NodeId.tid 2) (NodeId.tid 1) =
      -2 ∧
    ((0 : ℚ) ≠ -2) := by
  refine ⟨?_, ?_, by norm_num⟩
  · with_unfolding_all decide
  · with_unfolding_all decide

/-- Claim C2 (amended): in the forward pass, for every non-START node j whose
predecessors all precede it in the topological order, earliestStart(j) is the
fold of the type-dependent required starts (FS: ef(i)+lag; SS: es(i)+lag;
FF: ef(i)+lag−d_j; SF: es(i)+lag−d_j) over its predecessors seeded with the
accumulator value 0 — equivalently the maximum of 0 and the required starts,
so a negative required start is clamped to 0 rather than taken as-is, and 0
is also the value when there are no predecessors — and earliestFinish(j) =
earliestStart(j) + d_j with the clamped duration d_j (0 for END). -/
theorem claim2_amended_forward_clamp (tasks : List PTask) (durs : List ℚ)
    (P S : List NodeId) (j : NodeId)
    (htopo : kahnRun (buildGraph tasks) = P ++ j :: S)
    (hnodup : (P ++ j :: S).Nodup)
    (hj : j ≠ NodeId.start)
    (hpred : ∀ i ∈ (buildGraph tasks).revAdj j, i ∈ P) :
    (forwardPass tasks durs (buildGraph tasks) (kahnRun (buildGraph tasks))).1 j =
      ((buildGraph tasks).revAdj j).foldl
        (fun acc i => max acc (requiredStartOf tasks durs
          (forwardPass tasks durs (buildGraph tasks) (kahnRun (buildGraph tasks))).1
          (forwardPass tasks durs (buildGraph tasks) (kahnRun (buildGraph tasks))).2
          (if j = NodeId.finish then 0 else clampedDur tasks durs j) j i)) 0 ∧
    (forwardPass tasks durs (buildGraph tasks) (kahnRun (buildGraph tasks))).2 j =
      (forwardPass tasks durs (buildGraph tasks) (kahnRun (buildGraph tasks))).1 j +
        (if j = NodeId.finish then 0 else clampedDur tasks durs j) ∧
    0 ≤ (forwardPass tasks durs (buildGraph tasks) (kahnRun (buildGraph tasks))).1 j := by
  have hdisj : P.Disjoint (j :: S) := List.disjoint_of_nodup_append hnodup
  have hjP : j ∉ P := fun hjp => hdisj hjp (List.mem_cons_self j S)
  have hjS : j ∉ S := (List.nodup_cons.mp (List.nodup_append.mp hnodup).2.1).1
  rw [htopo]
  unfold forwardPass
  rw [List.foldl_append, List.foldl_cons]
  have hst2 :
      (forwardStep tasks durs (buildGraph tasks)
          (P.foldl (forwardStep tasks durs (buildGraph tasks)) (fun _ => 0, fun _ => 0)) j).1 j =
        ((buildGraph tasks).revAdj j).foldl
          (fun acc i => max acc (requiredStartOf tasks durs
            (P.foldl (forwardStep tasks durs (buildGraph tasks)) (fun _ => 0, fun _ => 0)).1
            (P.foldl (forwardStep tasks durs (buildGraph tasks)) (fun _ => 0, fun _ => 0)).2
            (if j = NodeId.finish then 0 else clampedDur tasks durs j) j i)) 0 ∧
      (forwardStep tasks durs (buildGraph tasks)
          (P.foldl (forwardStep tasks durs (buildGraph tasks)) (fun _ => 0, fun _ => 0)) j).2 j =
        ((buildGraph tasks).revAdj j).foldl
          (fun acc i => max acc (requiredStartOf tasks durs
            (P.foldl (forwardStep tasks durs (buildGraph tasks)) (fun _ => 0, fun _ => 0)).1
            (P.foldl (forwardStep tasks durs (buildGraph tasks)) (fun _ => 0, fun _ => 0)).2
            (if j = NodeId.finish then 0 else clampedDur tasks durs j) j i)) 0 +
          (if j = NodeId.finish then 0 else clampedDur tasks durs j) := by
    unfold forwardStep
    rw [if_neg hj]
    constructor
    · show (if j = j then _ else _) = _
      rw [if_pos rfl]
    · show (if j = j then _ else _) = _
      rw [if_pos rfl]
  obtain ⟨hfin1, hfin2⟩ := forwardList_other tasks durs (buildGraph tasks) S j _ hjS
  rw [hfin1, hfin2, hst2.1, hst2.2]
  have hcong : ∀ i ∈ (buildGraph tasks).revAdj j,
      requiredStartOf tasks durs
        (P.foldl (forwardStep tasks durs (buildGraph tasks)) (fun _ => 0, fun _ => 0)).1
        (P.foldl (forwardStep tasks durs (buildGraph tasks)) (fun _ => 0, fun _ => 0)).2
        (if j = NodeId.finish then 0 else clampedDur tasks durs j) j i =
      requiredStartOf tasks durs
        (S.foldl (forwardStep tasks durs (buildGraph tasks))
          (forwardStep tasks durs (buildGraph tasks)
            (P.foldl (forwardStep tasks durs (buildGraph tasks)) (fun _ => 0, fun _ => 0)) j)).1
        (S.foldl (forwardStep tasks durs (buildGraph tasks))
          (forwardStep tasks durs (buildGraph tasks)
            (P.foldl (forwardStep tasks durs (buildGraph tasks)) (fun _ => 0, fun _ => 0)) j)).2
        (if j = NodeId.finish then 0 else clampedDur tasks durs j) j i := by
    intro i hi
    have hiP : i ∈ P := hpred i hi
    have hij : i ≠ j := fun he => hjP (he ▸ hiP)
    have hiS : i ∉ S := fun hiS2 => hdisj hiP (List.mem_cons_of_mem j hiS2)
    obtain ⟨g1, g2⟩ := forwardList_other tasks durs (buildGraph tasks) S i _ hiS
    obtain ⟨g3, g4⟩ := forwardStep_other tasks durs (buildGraph tasks)
      (P.foldl (forwardStep tasks durs (buildGraph tasks)) (fun _ => 0, fun _ => 0)) j i hij
    exact requiredStartOf_congr tasks durs _ _ _ _ _ j i
      ((g1.trans g3).symm) ((g2.trans g4).symm)
  refine ⟨?_, rfl, ?_⟩
  · exact foldl_max_congr _ _ ((buildGraph tasks).revAdj j) 0 hcong
  · exact foldl_max_le_init _ _ 0

/-- Witness for the amended C2 at node 2 of the concrete chain. -/
theorem claim2_amended_witness :
    (forwardPass chainTasks [5, 3, 4] (buildGraph chainTasks)
        (kahnRun (buildGraph chainTasks))).2 (NodeId.tid 2) =
      (forwardPass chainTasks [5, 3, 4] (buildGraph chainTasks)
        (kahnRun (buildGraph chainTasks))).1 (NodeId.tid 2) +
        (if NodeId.tid 2 = NodeId.finish then 0
          else clampedDur chainTasks [5, 3, 4] (NodeId.tid 2)) ∧
    0 ≤ (forwardPass chainTasks [5, 3, 4] (buildGraph chainTasks)
        (kahnRun (buildGraph chainTasks))).1 (NodeId.tid 2) := by
  have h := claim2_amended_forward_clamp chainTasks [5, 3, 4]
    [NodeId.start, NodeId.tid 1] [NodeId.tid 3, NodeId.finish] (NodeId.tid 2)
    (by with_unfolding_all decide) (by decide) (by decide)
    (by with_unfolding_all decide)
  exact ⟨h.2.1, h.2.2⟩

/-- Moment-matched Beta shape parameter alpha of the PERT sampler for
gamma = 4 and a valid ordering (clampedLikely = likely), exactly as computed
in the final else branch of the source. -/
def pertAlpha (lo likely hi : ℚ) : ℚ :=
  let mu := (lo + 4 * likely + hi) / 6
  (mu - lo) * (2 * likely - lo - hi) / ((likely - mu) * (hi - lo))

/-- Moment-matched Beta shape parameter beta of the PERT sampler (gamma = 4,
valid ordering), as computed in the final else branch of the source. -/
def pertBeta (lo likely hi : ℚ) : ℚ :=
  let mu := (lo + 4 * likely + hi) / 6
  pertAlpha lo likely hi * (hi - mu) / (mu - lo)

/-- Claim C7 counterexample: at PERT parameters (0, 3, 6) the moment-matched
shape algebra is degenerate — its denominator factor likely − mu is 0 — so
the claim demands a Triangular(0, 3, 6) fallback draw; the source instead
takes the special branch alpha = gamma + 1 = 5, beta = 1 and returns the
rescaled Beta draw.  With the Beta oracle constantly 1 and the uniform draw
1/2 (and sqrt evaluating the fallback's √9), PERT returns 6 while the
Triangular fallback would return 3. -/
theorem claim7_counterexample :
    randomPERT (fun _ => 3) (fun _ _ => 1) (1 / 2) 0 3 6 4 = 6 ∧
    randomTriangular (fun _ => 3) (1 / 2) 0 3 6 = 3 ∧
    ((3 : ℚ) - (0 + 4 * 3 + 6) / (4 + 2) = 0) ∧
    (6 : ℚ) ≠ 3 := by
  refine ⟨?_, ?_, by norm_num, by norm_num⟩
  · with_unfolding_all decide
  · with_unfolding_all decide

/-- Claim C7 (amended): for gamma = 4, (a) if max = min the sampler returns
min; (b) if the ordering is violated it returns likely without throwing;
(c) if the ordering is valid but the moment-matching algebra is degenerate
because likely equals the PERT mean mu (equivalently 2·likely = min + max),
the sampler does NOT fall back to Triangular: it draws Beta(gamma + 1, 1)
rescaled into [min, max]; (d) otherwise the moment-matched shapes are
positive (finite, in exact arithmetic) and the sampler draws the rescaled
Beta(alpha, beta) — so the Triangular fallback guarded by the non-finite /
non-positive shape check is unreachable for valid orderings. -/
theorem claim7_amended_pert :
    (∀ (sqrt : ℚ → ℚ) (betaSample : ℚ → ℚ → ℚ) (u lo likely gamma : ℚ),
      randomPERT sqrt betaSample u lo likely lo gamma = lo) ∧
    (∀ (sqrt : ℚ → ℚ) (betaSample : ℚ → ℚ → ℚ) (u lo likely hi gamma : ℚ),
      hi ≠ lo → (hi < lo ∨ likely < lo ∨ likely > hi) →
      randomPERT sqrt betaSample u lo likely hi gamma = likely) ∧
    (∀ (sqrt : ℚ → ℚ) (betaSample : ℚ → ℚ → ℚ) (u lo likely hi : ℚ),
      lo < hi → lo ≤ likely → likely ≤ hi →
      likely = (lo + 4 * likely + hi) / 6 →
      randomPERT sqrt betaSample u lo likely hi 4 =
        lo + betaSample 5 1 * (hi - lo)) ∧
    (∀ (sqrt : ℚ → ℚ) (betaSample : ℚ → ℚ → ℚ) (u lo likely hi : ℚ),
      lo < hi → lo ≤ likely → likely ≤ hi →
      likely ≠ (lo + 4 * likely + hi) / 6 →
      0 < pertAlpha lo likely hi ∧ 0 < pertBeta lo likely hi ∧
      randomPERT sqrt betaSample u lo likely hi 4 =
        lo + betaSample (pertAlpha lo likely hi) (pertBeta lo likely hi) * (hi - lo)) := by
  refine ⟨?_, ?_, ?_, ?_⟩
  · intro sqrt betaSample u lo likely gamma
    simp [randomPERT]
  · intro sqrt betaSample u lo likely hi gamma hne hviol
    simp only [randomPERT]
    rw [if_neg hne, if_pos hviol]
  · intro sqrt betaSample u lo likely hi hlo h1 h2 hmu
    have hconv : (lo + 4 * likely + hi) / (4 + 2) = (lo + 4 * likely + hi) / 6 := by
      norm_num
    simp only [randomPERT]
    rw [if_neg (ne_of_gt hlo), if_neg (by push_neg; exact ⟨le_of_lt hlo, h1, h2⟩),
      min_eq_left h2, max_eq_right h1, hconv, if_pos (Or.inr hmu),
      if_neg (by norm_num [isFiniteQ])]
    norm_num
  · intro sqrt betaSample u lo likely hi hlo h1 h2 hne
    have hconv : (lo + 4 * likely + hi) / (4 + 2) = (lo + 4 * likely + hi) / 6 := by
      norm_num
    have h60 : (0 : ℚ) < 6 := by norm_num
    have hmulo : lo < (lo + 4 * likely + hi) / 6 := by
      rw [lt_div_iff₀ h60]; linarith
    have hmuhi : (lo + 4 * likely + hi) / 6 < hi := by
      rw [div_lt_iff₀ h60]; linarith
    have hsub6 : likely - (lo + 4 * likely + hi) / 6 ≠ 0 := sub_ne_zero.mpr hne
    have hsublo : (lo + 4 * likely + hi) / 6 - lo ≠ 0 :=
      sub_ne_zero.mpr (ne_of_gt hmulo)
    have hsubhi : hi - lo ≠ 0 := sub_ne_zero.mpr (ne_of_gt hlo)
    have halphapos : 0 < pertAlpha lo likely hi := by
      simp only [pertAlpha]
      have hkey : 2 * likely - lo - hi = 6 * (likely - (lo + 4 * likely + hi) / 6) := by
        ring
      rw [hkey, div_pos_iff]
      rcases hsub6.lt_or_lt with hneg | hpos
      · right
        refine ⟨mul_neg_of_pos_of_neg (by linarith) (by linarith), ?_⟩
        exact mul_neg_of_neg_of_pos hneg (by linarith)
      · left
        exact ⟨mul_pos (by linarith) (by linarith), mul_pos hpos (by linarith)⟩
    have hbetapos : 0 < pertBeta lo likely hi := by
      simp only [pertBeta]
      exact div_pos (mul_pos halphapos (by linarith)) (by linarith)
    refine ⟨halphapos, hbetapos, ?_⟩
    simp only [randomPERT]
    rw [if_neg (ne_of_gt hlo), if_neg (by push_neg; exact ⟨le_of_lt hlo, h1, h2⟩),
      min_eq_left h2, max_eq_right h1, hconv,
      if_neg (by push_neg; exact ⟨ne_of_lt hmuhi, hne⟩),
      if_neg (ne_of_gt hmulo),
      if_neg (by push_neg; exact ⟨hsub6, hsublo, hsubhi⟩)]
    have hguard : ¬ (isFiniteQ (pertAlpha lo likely hi) = false ∨
        isFiniteQ (pertBeta lo likely hi) = false ∨
        pertAlpha lo likely hi ≤ 0 ∨ pertBeta lo likely hi ≤ 0) := by
      push_neg
      exact ⟨by simp [isFiniteQ], by simp [isFiniteQ],
        not_le.mp (not_le.mpr halphapos), not_le.mp (not_le.mpr hbetapos)⟩
    exact if_neg hguard

/-- Witness for the amended C7: one concrete instance for each branch
(degenerate span, violated ordering, symmetric likely = mu, and the generic
moment-matched case with positive shapes). -/
theorem claim7_witness :
    randomPERT (fun q => q) (fun a b => a + b) (1 / 2) 2 3 2 4 = 2 ∧
    randomPERT (fun q => q) (fun a b => a + b) (1 / 2) 0 7 5 4 = 7 ∧
    randomPERT (fun q => q) (fun a b => a + b) (1 / 2) 0 3 6 4 =
      0 + (fun a b : ℚ => a + b) 5 1 * (6 - 0) ∧
    (0 < pertAlpha 0 1 6 ∧ 0 < pertBeta 0 1 6 ∧
      randomPERT (fun q => q) (fun a b => a + b) (1 / 2) 0 1 6 4 =
        0 + (fun a b : ℚ => a + b) (pertAlpha 0 1 6) (pertBeta 0 1 6) * (6 - 0)) :=
  ⟨claim7_amended_pert.1 (fun q => q) (fun a b => a + b) (1 / 2) 2 3 4,
   claim7_amended_pert.2.1 (fun q => q) (fun a b => a + b) (1 / 2) 0 7 5 4
     (by norm_num) (by norm_num),
   claim7_amended_pert.2.2.1 (fun q => q) (fun a b => a + b) (1 / 2) 0 3 6
     (by norm_num) (by norm_num) (by norm_num) (by norm_num),
   claim7_amended_pert.2.2.2 (fun q => q) (fun a b => a + b) (1 / 2) 0 1 6
     (by norm_num) (by norm_num) (by norm_num) (by norm_num)⟩

lemma mergeSort_rat_eq (data sorted : List ℚ)
    (hperm : data.Perm sorted) (hsorted : sorted.Sorted (fun a b => a ≤ b)) :
    data.mergeSort (fun a b => decide (a ≤ b)) = sorted := by
  refine List.eq_of_perm_of_sorted ((List.mergeSort_perm data _).trans hperm) ?_ hsorted
  have h := @List.sorted_mergeSort ℚ (fun a b : ℚ => decide (a ≤ b))
    (fun a b c hab hbc => by
      simp only [decide_eq_true_eq] at *
      exact le_trans hab hbc)
    (fun a b => by
      rcases le_total a b with h | h
      · simp [h]
      · simp [h])
    data
  exact h.imp (fun hab => by simpa using hab)

lemma getD_last (l : List ℚ) : l.getD (l.length - 1) 0 = l.getLastD 0 := by
  rw [List.getLastD_eq_getLast?, List.getLast?_eq_getElem?, List.getD_eq_getElem?_getD]

/-- Claim C8: on every non-empty data list, getPercentiles interpolates each
requested percentile on the ascending sort of the data (the unique sorted
permutation), computing rank = (p/100)·(n−1) and linearly interpolating the
floor/ceil order statistics weighted by the fractional part; p at or below 0
clamps to the first element and p at or above 100 clamps to the last; in
particular Percentile([1..10], 50) = 5.5. -/
theorem claim8_percentile (data sorted : List ℚ)
    (hne : data ≠ []) (hperm : data.Perm sorted)
    (hsorted : sorted.Sorted (fun a b => a ≤ b)) :
    (∀ ps : List ℚ, getPercentiles data ps =
      ps.map (fun p => (p, some (percentileValue sorted p)))) ∧
    (∀ p : ℚ, p ≤ 0 → percentileValue sorted p = sorted.headD 0) ∧
    (∀ p : ℚ, 100 ≤ p → percentileValue sorted p = sorted.getLastD 0) ∧
    getPercentiles [1, 2, 3, 4, 5, 6, 7, 8, 9, 10] [50] = [(50, some (11 / 2))] := by
  have hsne : sorted ≠ [] := fun he => hne (List.Perm.eq_nil (he ▸ hperm))
  have hn1 : 1 ≤ sorted.length := List.length_pos.mpr hsne
  have hn1q : (1 : ℚ) ≤ (sorted.length : ℚ) := by exact_mod_cast hn1
  refine ⟨?_, ?_, ?_, by with_unfolding_all decide⟩
  · intro ps
    unfold getPercentiles
    rw [if_neg hne, mergeSort_rat_eq data sorted hperm hsorted]
  · intro p hp
    have hrank : p / 100 * ((sorted.length : ℚ) - 1) ≤ 0 :=
      mul_nonpos_iff.mpr (Or.inr ⟨div_nonpos_of_nonpos_of_nonneg hp (by norm_num),
        by linarith⟩)
    simp only [percentileValue]
    split_ifs with hif1 hif2
    · exfalso
      have hceil : ⌈p / 100 * ((sorted.length : ℚ) - 1)⌉ ≤ 0 :=
        Int.ceil_le.mpr (by simpa using hrank)
      have : (1 : ℤ) ≤ (sorted.length : ℤ) := by exact_mod_cast hn1
      omega
    · rfl
    · have hfl : (0 : ℚ) ≤ (⌊p / 100 * ((sorted.length : ℚ) - 1)⌋ : ℚ) := by
        exact_mod_cast not_lt.mp hif2
      have hfle : (⌊p / 100 * ((sorted.length : ℚ) - 1)⌋ : ℚ) ≤
          p / 100 * ((sorted.length : ℚ) - 1) := Int.floor_le _
      have hR0 : p / 100 * ((sorted.length : ℚ) - 1) = 0 := le_antisymm hrank
        (le_trans hfl hfle)
      rw [hR0]
      obtain ⟨a, t, rfl⟩ := List.exists_cons_of_ne_nil hsne
      simp
  · intro p hp
    have h100 : (1 : ℚ) ≤ p / 100 := by
      rw [le_div_iff₀ (by norm_num : (0 : ℚ) < 100)]; linarith
    have hrank : (sorted.length : ℚ) - 1 ≤ p / 100 * ((sorted.length : ℚ) - 1) := by
      nlinarith
    simp only [percentileValue]
    split_ifs with hif1 hif2
    · rfl
    · exfalso
      have hfl : (sorted.length : ℤ) - 1 ≤ ⌊p / 100 * ((sorted.length : ℚ) - 1)⌋ := by
        rw [Int.le_floor]
        push_cast
        linarith
      omega
    · have hceil : (⌈p / 100 * ((sorted.length : ℚ) - 1)⌉ : ℚ) ≤
          (sorted.length : ℚ) - 1 := by
        have := not_le.mp hif1
        have h2 : ⌈p / 100 * ((sorted.length : ℚ) - 1)⌉ ≤ (sorted.length : ℤ) - 1 := by
          omega
        calc (⌈p / 100 * ((sorted.length : ℚ) - 1)⌉ : ℚ) ≤
            (((sorted.length : ℤ) - 1 : ℤ) : ℚ) := by exact_mod_cast h2
          _ = (sorted.length : ℚ) - 1 := by push_cast; ring
      have hR : p / 100 * ((sorted.length : ℚ) - 1) = (sorted.length : ℚ) - 1 :=
        le_antisymm (le_trans (Int.le_ceil _) hceil) hrank
      have hRint : p / 100 * ((sorted.length : ℚ) - 1) =
          (((sorted.length : ℤ) - 1 : ℤ) : ℚ) := by
        rw [hR]; push_cast; ring
      rw [hRint, Int.floor_intCast, Int.ceil_intCast]
      have htn : ((sorted.length : ℤ) - 1).toNat = sorted.length - 1 := by omega
      rw [htn, getD_last, sub_self]
      ring
/-- Witness for C8: clamped boundaries on a concrete unsorted list, and the
interpolated median of [1..10]. -/
theorem claim8_witness :
    getPercentiles [3, 1, 2] [0, 100] = [(0, some 1), (100, some 3)] ∧
    getPercentiles [1, 2, 3, 4, 5, 6, 7, 8, 9, 10] [50] = [(50, some (11 / 2))] := by
  have h := claim8_percentile [3, 1, 2] [1, 2, 3] (by decide)
    (by with_unfolding_all decide) (by with_unfolding_all decide)
  refine ⟨?_, h.2.2.2⟩
  rw [h.1 [0, 100]]
  with_unfolding_all decide

/-- Consistency of the engine accumulators: the three per-task collections
stay parallel to the task list and every per-task sequence has exactly one
entry per successful run. -/
def SampleLengthsOk (tasks : List PTask) (st : MCState) : Prop :=
  st.taskDurationSamples.length = tasks.length ∧
  st.taskCostSamples.length = tasks.length ∧
  st.allTaskTimings.length = tasks.length ∧
  (∀ l ∈ st.taskDurationSamples, l.length = st.simulationRuns.length) ∧
  (∀ l ∈ st.taskCostSamples, l.length = st.simulationRuns.length) ∧
  (∀ e ∈ st.allTaskTimings, e.1.length = st.simulationRuns.length ∧
    e.2.length = st.simulationRuns.length)

lemma mem_zipWith {α β γ : Type} (f : α → β → γ) :
    ∀ (as : List α) (bs : List β), ∀ c ∈ List.zipWith f as bs,
      ∃ a ∈ as, ∃ b ∈ bs, c = f a b := by
  intro as
  induction as with
  | nil => intro bs c hc; simp at hc
  | cons a ts ih =>
      intro bs c hc
      cases bs with
      | nil => simp at hc
      | cons b vt =>
          rw [List.zipWith_cons_cons] at hc
          rcases List.mem_cons.mp hc with rfl | hc2
          · exact ⟨a, List.mem_cons_self a ts, b, List.mem_cons_self b vt, rfl⟩
          · obtain ⟨a2, ha2, b2, hb2, he⟩ := ih vt c hc2
            exact ⟨a2, List.mem_cons_of_mem a ha2, b2, List.mem_cons_of_mem b hb2, he⟩

lemma calculateCPM_timings (tasks : List PTask) (durs : List ℚ) (r : CPMResult)
    (h : calculateCPM tasks durs = some r) :
    r.taskTimings = tasks.map (fun t => (NodeId.tid t.id,
      (forwardPass tasks durs (buildGraph tasks) (kahnRun (buildGraph tasks))).1
        (NodeId.tid t.id),
      (forwardPass tasks durs (buildGraph tasks) (kahnRun (buildGraph tasks))).2
        (NodeId.tid t.id))) := by
  simp only [calculateCPM] at h
  split at h
  · obtain rfl := (Option.some.inj h).symm; rfl
  · exact Option.noConfusion h

lemma timingsLookup_some_acc (k : NodeId) :
    ∀ (tt : List (NodeId × ℚ × ℚ)) (acc : Option (ℚ × ℚ)) (v : ℚ × ℚ), acc = some v →
      ∃ w, tt.foldl (fun a e => if e.1 = k then some e.2 else a) acc = some w := by
  intro tt
  induction tt with
  | nil => exact fun acc v h => ⟨v, h⟩
  | cons e rest ih =>
      intro acc v h
      rw [List.foldl_cons]
      by_cases he : e.1 = k
      · rw [if_pos he]; exact ih _ e.2 rfl
      · rw [if_neg he]; exact ih _ v h

lemma timingsLookup_mem (k : NodeId) :
    ∀ (tt : List (NodeId × ℚ × ℚ)) (acc : Option (ℚ × ℚ)), (∃ e ∈ tt, e.1 = k) →
      ∃ w, tt.foldl (fun a e => if e.1 = k then some e.2 else a) acc = some w := by
  intro tt
  induction tt with
  | nil => intro acc h; obtain ⟨e, he, _⟩ := h; cases he
  | cons e rest ih =>
      intro acc h
      rw [List.foldl_cons]
      by_cases he : e.1 = k
      · rw [if_pos he]; exact timingsLookup_some_acc k rest _ e.2 rfl
      · rw [if_neg he]
        obtain ⟨e2, he2, hk⟩ := h
        rcases List.mem_cons.mp he2 with rfl | h2
        · exact absurd hk he
        · exact ih acc ⟨e2, h2, hk⟩

lemma timingsLookup_task (tasks : List PTask) (durs : List ℚ) (r : CPMResult)
    (h : calculateCPM tasks durs = some r) (t : PTask) (ht : t ∈ tasks) :
    ∃ w, timingsLookup r.taskTimings (NodeId.tid t.id) = some w := by
  unfold timingsLookup
  refine timingsLookup_mem _ _ none ?_
  rw [calculateCPM_timings tasks durs r h]
  exact ⟨_, List.mem_map_of_mem _ ht, rfl⟩

lemma mcTrial_inv (tasks : List PTask) (st : MCState) (rd rc : List ℚ)
    (hrd : rd.length = tasks.length) (hrc : rc.length = tasks.length)
    (hok : SampleLengthsOk tasks st) :
    SampleLengthsOk tasks (mcTrial tasks st rd rc) ∧
    (mcTrial tasks st rd rc).simulationRuns.length ≤ st.simulationRuns.length + 1 := by
  obtain ⟨h1, h2, h3, h4, h5, h6⟩ := hok
  unfold mcTrial
  cases hcpm : calculateCPM tasks rd with
  | some r =>
      constructor
      · refine ⟨?_, ?_, ?_, ?_, ?_, ?_⟩
        · simp [h1, hrd]
        · simp [h2, hrc]
        · simp [h3]
        · intro l hl
          obtain ⟨a, ha, b, _, rfl⟩ := mem_zipWith _ _ _ l hl
          simp [h4 a ha]
        · intro l hl
          obtain ⟨a, ha, b, _, rfl⟩ := mem_zipWith _ _ _ l hl
          simp [h5 a ha]
        · intro e he
          obtain ⟨a, ha, t, htm, rfl⟩ := mem_zipWith _ _ _ e he
          obtain ⟨w, hw⟩ := timingsLookup_task tasks rd r hcpm t htm
          rw [hw]
          simp [(h6 a ha).1, (h6 a ha).2]
      · simp
  | none =>
      constructor
      · refine ⟨?_, ?_, h3, ?_, ?_, h6⟩
        · simp [h1, hrd]
        · simp [h2, hrc]
        · intro l hl
          rw [List.mem_map] at hl
          obtain ⟨l2, hl2, rfl⟩ := hl
          obtain ⟨a, ha, b, _, rfl⟩ := mem_zipWith _ _ _ l2 hl2
          rw [List.dropLast_concat]
          exact h4 a ha
        · intro l hl
          rw [List.mem_map] at hl
          obtain ⟨l2, hl2, rfl⟩ := hl
          obtain ⟨a, ha, b, _, rfl⟩ := mem_zipWith _ _ _ l2 hl2
          rw [List.dropLast_concat]
          exact h5 a ha
      · exact Nat.le_succ _

lemma mcInit_ok (tasks : List PTask) : SampleLengthsOk tasks (mcInitState tasks) := by
  refine ⟨by simp [mcInitState], by simp [mcInitState], by simp [mcInitState],
    ?_, ?_, ?_⟩ <;>
  · intro l hl
    simp [mcInitState] at hl
    simp [hl, mcInitState]

lemma mcLoop_inv (tasks : List PTask) (numRuns : ℕ) (durOf costOf : ℕ → ℕ → ℚ) :
    SampleLengthsOk tasks (mcLoop tasks numRuns durOf costOf) ∧
    (mcLoop tasks numRuns durOf costOf).simulationRuns.length ≤ numRuns := by
  induction numRuns with
  | zero => exact ⟨mcInit_ok tasks, by simp [mcLoop, mcInitState]⟩
  | succ n ih =>
      unfold mcLoop at ih ⊢
      rw [List.range_succ, List.foldl_append, List.foldl_cons, List.foldl_nil]
      obtain ⟨hok, hle⟩ := ih
      obtain ⟨hok2, hle2⟩ := mcTrial_inv tasks _
        ((List.range tasks.length).map (durOf n))
        ((List.range tasks.length).map (costOf n)) (by simp) (by simp) hok
      exact ⟨hok2, le_trans hle2 (by omega)⟩

/-- Claim C5: after the batch completes, every task's duration-sample,
cost-sample, earliest-start and earliest-finish sequence has length equal to
the number of valid (successful) runs: a trial whose scheduling fails has
its freshly appended per-task samples popped again, is not counted toward
the valid-run total, and is not retried (the valid-run count never exceeds
numRuns). -/
theorem claim5_sample_lengths (tasks : List PTask) (numRuns : ℕ)
    (durOf costOf : ℕ → ℕ → ℚ) (sqrt : ℚ → ℚ) (idx : ℕ) (hidx : idx < tasks.length) :
    ((runMonteCarloSimulation tasks numRuns durOf costOf sqrt).taskDurationSamples.getD
        idx []).length =
      (runMonteCarloSimulation tasks numRuns durOf costOf sqrt).simulationRuns.length ∧
    ((runMonteCarloSimulation tasks numRuns durOf costOf sqrt).taskCostSamples.getD
        idx []).length =
      (runMonteCarloSimulation tasks numRuns durOf costOf sqrt).simulationRuns.length ∧
    ((runMonteCarloSimulation tasks numRuns durOf costOf sqrt).allTaskTimings.getD
        idx ([], [])).1.length =
      (runMonteCarloSimulation tasks numRuns durOf costOf sqrt).simulationRuns.length ∧
    ((runMonteCarloSimulation tasks numRuns durOf costOf sqrt).allTaskTimings.getD
        idx ([], [])).2.length =
      (runMonteCarloSimulation tasks numRuns durOf costOf sqrt).simulationRuns.length ∧
    (runMonteCarloSimulation tasks numRuns durOf costOf sqrt).simulationRuns.length ≤
      numRuns := by
  obtain ⟨⟨h1, h2, h3, h4, h5, h6⟩, hle⟩ := mcLoop_inv tasks numRuns durOf costOf
  simp only [runMonteCarloSimulation]
  split
  · exact ⟨rfl, rfl, rfl, rfl, Nat.zero_le _⟩
  · refine ⟨?_, ?_, ?_, ?_, hle⟩
    · rw [List.getD_eq_getElem _ _ (h1 ▸ hidx)]
      exact h4 _ (List.getElem_mem _)
    · rw [List.getD_eq_getElem _ _ (h2 ▸ hidx)]
      exact h5 _ (List.getElem_mem _)
    · rw [List.getD_eq_getElem _ _ (h3 ▸ hidx)]
      exact (h6 _ (List.getElem_mem _)).1
    · rw [List.getD_eq_getElem _ _ (h3 ▸ hidx)]
      exact (h6 _ (List.getElem_mem _)).2

/-- Witness for C5 at the concrete chain with two trials. -/
theorem claim5_witness :
    ((runMonteCarloSimulation chainTasks 2 (fun _ _ => 1) (fun _ _ => 2)
        (fun q => q)).taskDurationSamples.getD 0 []).length =
      (runMonteCarloSimulation chainTasks 2 (fun _ _ => 1) (fun _ _ => 2)
        (fun q => q)).simulationRuns.length ∧
    ((runMonteCarloSimulation chainTasks 2 (fun _ _ => 1) (fun _ _ => 2)
        (fun q => q)).taskCostSamples.getD 0 []).length =
      (runMonteCarloSimulation chainTasks 2 (fun _ _ => 1) (fun _ _ => 2)
        (fun q => q)).simulationRuns.length ∧
    ((runMonteCarloSimulation chainTasks 2 (fun _ _ => 1) (fun _ _ => 2)
        (fun q => q)).allTaskTimings.getD 0 ([], [])).1.length =
      (runMonteCarloSimulation chainTasks 2 (fun _ _ => 1) (fun _ _ => 2)
        (fun q => q)).simulationRuns.length ∧
    ((runMonteCarloSimulation chainTasks 2 (fun _ _ => 1) (fun _ _ => 2)
        (fun q => q)).allTaskTimings.getD 0 ([], [])).2.length =
      (runMonteCarloSimulation chainTasks 2 (fun _ _ => 1) (fun _ _ => 2)
        (fun q => q)).simulationRuns.length ∧
    (runMonteCarloSimulation chainTasks 2 (fun _ _ => 1) (fun _ _ => 2)
        (fun q => q)).simulationRuns.length ≤ 2 :=
  claim5_sample_lengths chainTasks 2 (fun _ _ => 1) (fun _ _ => 2) (fun q => q) 0
    (by decide)

/-- Witness for C10 at the concrete chain. -/
theorem claim10_witness :
    (∀ j, 0 ≤ clampedDur chainTasks [5, 3, 4] j) ∧
    (∀ e ∈ (CPMResult.mk 12 [NodeId.tid 1, NodeId.tid 2, NodeId.tid 3]
        [(NodeId.tid 1, 0, 5), (NodeId.tid 2, 5, 8), (NodeId.tid 3, 8, 12)]).taskTimings,
      0 ≤ e.2.1 ∧ e.2.1 ≤ e.2.2) ∧
    0 ≤ (CPMResult.mk 12 [NodeId.tid 1, NodeId.tid 2, NodeId.tid 3]
        [(NodeId.tid 1, 0, 5), (NodeId.tid 2, 5, 8), (NodeId.tid 3, 8, 12)]).totalDuration :=
  claim10_nonneg_timings chainTasks [5, 3, 4] _ (by with_unfolding_all decide)

lemma sum_sq_nonneg_list (l : List ℝ) (m : ℝ) :
    0 ≤ (l.map (fun v => (v - m) ^ 2)).sum :=
  List.sum_nonneg (fun a ha => by
    obtain ⟨v, _, rfl⟩ := List.mem_map.mp ha
    positivity)

lemma sum_sq_eq_zero_iff (l : List ℝ) (m : ℝ) :
    (l.map (fun v => (v - m) ^ 2)).sum = 0 ↔ ∀ a ∈ l, a = m := by
  induction l with
  | nil => simp
  | cons a t ih =>
      rw [List.map_cons, List.sum_cons,
        add_eq_zero_iff_of_nonneg (by positivity) (sum_sq_nonneg_list t m), ih]
      constructor
      · rintro ⟨h1, h2⟩ b hb
        rcases List.mem_cons.mp hb with rfl | hbt
        · have hz : b - m = 0 := sq_eq_zero_iff.mp h1
          linarith
        · exact h2 b hbt
      · intro hall
        refine ⟨?_, fun b hb => hall b (List.mem_cons_of_mem a hb)⟩
        rw [hall a (List.mem_cons_self a t)]
        ring

lemma two_le_length_of_two_mem {l : List ℝ} {a b : ℝ}
    (ha : a ∈ l) (hb : b ∈ l) (hab : a ≠ b) : 2 ≤ l.length := by
  cases l with
  | nil => cases ha
  | cons x t =>
      cases t with
      | nil =>
          rw [List.mem_singleton] at ha hb
          exact absurd (ha.trans hb.symm) hab
      | cons y t2 =>
          simp only [List.length_cons]
          omega

lemma sum_sq_pos_of_nonconst (l : List ℝ) (a b : ℝ) (ha : a ∈ l) (hb : b ∈ l)
    (hab : a ≠ b) (m : ℝ) : 0 < (l.map (fun v => (v - m) ^ 2)).sum := by
  rcases lt_or_eq_of_le (sum_sq_nonneg_list l m) with h | h
  · exact h
  · exact absurd ((((sum_sq_eq_zero_iff l m).mp h.symm) a ha).trans
      (((sum_sq_eq_zero_iff l m).mp h.symm) b hb).symm) hab

lemma sampleStdDev_pos (l : List ℝ) (a b : ℝ) (ha : a ∈ l) (hb : b ∈ l)
    (hab : a ≠ b) : 0 < sampleStdDev Real.sqrt l := by
  have h2 : 2 ≤ l.length := two_le_length_of_two_mem ha hb hab
  have hn1 : (0 : ℝ) < (l.length : ℝ) - 1 := by
    have hc : (2 : ℝ) ≤ (l.length : ℝ) := by exact_mod_cast h2
    linarith
  unfold sampleStdDev
  exact Real.sqrt_pos.mpr (div_pos (sum_sq_pos_of_nonconst l a b ha hb hab _) hn1)

lemma sampleStdDev_mul_self (l : List ℝ) (h2 : 2 ≤ l.length) :
    ((l.length : ℝ) - 1) * sampleStdDev Real.sqrt l * sampleStdDev Real.sqrt l =
      (l.map (fun v => (v - l.sum / (l.length : ℝ)) ^ 2)).sum := by
  have hn1 : (0 : ℝ) < (l.length : ℝ) - 1 := by
    have hc : (2 : ℝ) ≤ (l.length : ℝ) := by exact_mod_cast h2
    linarith
  unfold sampleStdDev
  rw [mul_assoc, Real.mul_self_sqrt (div_nonneg (sum_sq_nonneg_list l _) hn1.le),
    mul_comm ((l.length : ℝ) - 1), div_mul_cancel₀ _ (ne_of_gt hn1)]

lemma sum_map_neg_real (l : List ℝ) : (l.map (fun v => -v)).sum = -l.sum := by
  induction l with
  | nil => simp
  | cons a t ih =>
      rw [List.map_cons, List.sum_cons, List.sum_cons, ih]
      ring

lemma sampleStdDev_neg (l : List ℝ) :
    sampleStdDev Real.sqrt (l.map (fun v => -v)) = sampleStdDev Real.sqrt l := by
  unfold sampleStdDev
  rw [List.length_map, sum_map_neg_real, List.map_map]
  congr 2
  exact congrArg List.sum (List.map_congr_left (fun v hv => by
    show (-v - -l.sum / (l.length : ℝ)) ^ 2 = (v - l.sum / (l.length : ℝ)) ^ 2
    ring))

/-- Claim C9: pearsonCorrelation returns 0 whenever n ≤ 1 or either
Bessel-corrected sample standard deviation is 0; its result always lies in
[−1, 1]; for every non-constant sequence its correlation with itself is 1
and with its negation is −1; and its correlation with a constant sequence
is 0. -/
theorem claim9_pearson :
    (∀ x y : List ℝ, (x.length ≤ 1 ∨ sampleStdDev Real.sqrt x = 0 ∨
        sampleStdDev Real.sqrt y = 0) → pearsonCorrelation Real.sqrt x y = 0) ∧
    (∀ x y : List ℝ, -1 ≤ pearsonCorrelation Real.sqrt x y ∧
        pearsonCorrelation Real.sqrt x y ≤ 1) ∧
    (∀ x : List ℝ, (∃ a ∈ x, ∃ b ∈ x, a ≠ b) →
        pearsonCorrelation Real.sqrt x x = 1) ∧
    (∀ x : List ℝ, (∃ a ∈ x, ∃ b ∈ x, a ≠ b) →
        pearsonCorrelation Real.sqrt x (x.map (fun v => -v)) = -1) ∧
    (∀ (x : List ℝ) (m : ℕ) (c : ℝ),
        pearsonCorrelation Real.sqrt x (List.replicate m c) = 0) := by
  refine ⟨?_, ?_, ?_, ?_, ?_⟩
  · intro x y h
    simp only [pearsonCorrelation]
    by_cases h1 : x.length ≤ 1 ∨ x.length ≠ y.length
    · rw [if_pos h1]
    · rw [if_neg h1]
      push_neg at h1
      rcases h with hl | hsd | hsd
      · exact absurd hl (by omega)
      · rw [if_pos (Or.inl hsd)]
      · rw [if_pos (Or.inr hsd)]
  · intro x y
    simp only [pearsonCorrelation]
    split_ifs
    · norm_num
    · norm_num
    · norm_num
    · exact ⟨le_max_left _ _, max_le (by norm_num) (min_le_left _ _)⟩
  · intro x hx
    obtain ⟨a, ha, b, hb, hab⟩ := hx
    have h2 : 2 ≤ x.length := two_le_length_of_two_mem ha hb hab
    have hS := sum_sq_pos_of_nonconst x a b ha hb hab (x.sum / (x.length : ℝ))
    have hsd := sampleStdDev_pos x a b ha hb hab
    simp only [pearsonCorrelation]
    rw [if_neg (by push_neg; exact ⟨by omega, rfl⟩),
      if_neg (by push_neg; exact ⟨ne_of_gt hsd, ne_of_gt hsd⟩)]
    have hnum : (deviationProducts (x.sum / (x.length : ℝ)) (x.sum / (x.length : ℝ))
        x x).sum = (x.map (fun v => (v - x.sum / (x.length : ℝ)) ^ 2)).sum := by
      unfold deviationProducts
      rw [List.zipWith_same]
      exact congrArg List.sum (List.map_congr_left (fun v hv => by ring))
    rw [hnum, sampleStdDev_mul_self x h2, if_neg (ne_of_gt hS),
      div_self (ne_of_gt hS), min_self, max_eq_right (by norm_num : (-1 : ℝ) ≤ 1)]
  · intro x hx
    obtain ⟨a, ha, b, hb, hab⟩ := hx
    have h2 : 2 ≤ x.length := two_le_length_of_two_mem ha hb hab
    have hS := sum_sq_pos_of_nonconst x a b ha hb hab (x.sum / (x.length : ℝ))
    have hsd := sampleStdDev_pos x a b ha hb hab
    simp only [pearsonCorrelation]
    rw [if_neg (by push_neg; exact ⟨by omega, (List.length_map x _).symm⟩),
      if_neg (by push_neg; exact ⟨ne_of_gt hsd,
        (by rw [sampleStdDev_neg]; exact ne_of_gt hsd)⟩)]
    rw [sum_map_neg_real, sampleStdDev_neg]
    have hnum : (deviationProducts (x.sum / (x.length : ℝ)) (-x.sum / (x.length : ℝ))
        x (x.map (fun v => -v))).sum =
        -(x.map (fun v => (v - x.sum / (x.length : ℝ)) ^ 2)).sum := by
      unfold deviationProducts
      rw [List.zipWith_map_right, List.zipWith_same]
      have hpt : x.map (fun a2 => (a2 - x.sum / (x.length : ℝ)) *
          (-a2 - -x.sum / (x.length : ℝ))) =
          (x.map (fun v => (v - x.sum / (x.length : ℝ)) ^ 2)).map (fun v => -v) := by
        rw [List.map_map]
        exact List.map_congr_left (fun v hv => by
          show (v - x.sum / (x.length : ℝ)) * (-v - -x.sum / (x.length : ℝ)) =
            -((v - x.sum / (x.length : ℝ)) ^ 2)
          ring)
      rw [hpt, sum_map_neg_real]
    rw [hnum, sampleStdDev_mul_self x h2, if_neg (ne_of_gt hS), neg_div,
      div_self (ne_of_gt hS), min_eq_right (by norm_num : (-1 : ℝ) ≤ 1), max_self]
  · intro x m c
    simp only [pearsonCorrelation]
    by_cases h1 : x.length ≤ 1 ∨ x.length ≠ (List.replicate m c).length
    · rw [if_pos h1]
    · rw [if_neg h1]
      push_neg at h1
      have hm2 : 2 ≤ m := by
        have := h1.2
        rw [List.length_replicate] at this
        omega
      have hm : (m : ℝ) ≠ 0 := by
        have : (2 : ℝ) ≤ (m : ℝ) := by exact_mod_cast hm2
        linarith
      have hsd0 : sampleStdDev Real.sqrt (List.replicate m c) = 0 := by
        unfold sampleStdDev
        rw [List.length_replicate, List.sum_replicate, nsmul_eq_mul,
          mul_div_cancel_left₀ c hm, List.map_replicate]
        simp
      rw [if_pos (Or.inr hsd0)]

/-- Witness for C9 at concrete sequences. -/
theorem claim9_witness :
    pearsonCorrelation Real.sqrt [3] [4] = 0 ∧
    pearsonCorrelation Real.sqrt [1, 2] (List.replicate 2 (5 : ℝ)) = 0 ∧
    (-1 ≤ pearsonCorrelation Real.sqrt [1, 2] [2, 1] ∧
      pearsonCorrelation Real.sqrt [1, 2] [2, 1] ≤ 1) ∧
    pearsonCorrelation Real.sqrt [1, 2] [1, 2] = 1 ∧
    pearsonCorrelation Real.sqrt [1, 2] ([1, 2].map (fun v => -v)) = -1 :=
  ⟨claim9_pearson.1 [3] [4] (Or.inl (by simp)),
   claim9_pearson.2.2.2.2 [1, 2] 2 5,
   claim9_pearson.2.1 [1, 2] [2, 1],
   claim9_pearson.2.2.1 [1, 2] ⟨1, by simp, 2, by simp, by norm_num⟩,
   claim9_pearson.2.2.2.1 [1, 2] ⟨1, by simp, 2, by simp, by norm_num⟩⟩

end MCSim
